import Mathlib

/-!
Verification of the host-side device communication engine of this repository
(`main.py`): packet framing, command exchange, chunked write, paginated
listing, the bulk file-dump receive loop of `FileSystem.ls_all`, and the
RGB565 pixel codec.

Modelling conventions (shallow embedding of the Python source):
* bytes are `Nat` values; byte strings (`bytes`/`bytearray`) are `List Nat`;
* Python strings that originate from `bytes.decode('utf-8', errors='ignore')`
  are represented by their underlying byte lists (all names appearing in the
  claims are ASCII, where the decoding is the identity);
* the serial stream is a finite byte list: a bounded `read(n)` returns the
  next `min n remaining` bytes, and returns the empty string exactly when the
  stream is exhausted, which models a pyserial read timing out;
* the on-disk output directory is an association list from file names to file
  contents; the PNG preview written by `convert_raw_to_png` is represented by
  the constructor `FsEntry.pngRender` applied to the source raw bytes (the
  actual PNG encoding done by Pillow is a pure function of those bytes and is
  irrelevant to every claim);
* OS operations (`shutil.rmtree`, `os.makedirs`, `os.remove`, `open`) are
  assumed to succeed, as the claims describe protocol behaviour, not OS
  failures.
-/

namespace ApiTest

/-! ### Byte utilities -/

/-- `struct.pack('<I', n)`: the four little-endian bytes of `n < 2^32`. -/
def u32le (n : Nat) : List Nat :=
  [n % 256, n / 256 % 256, n / 65536 % 256, n / 16777216 % 256]

/-- `struct.unpack('<I', bs)` for a four-byte list. -/
def le32 (bs : List Nat) : Nat :=
  match bs with
  | [b0, b1, b2, b3] => b0 + 256 * b1 + 65536 * b2 + 16777216 * b3
  | _ => 0

/-! ### Return codes and command identifiers (`CommandID`, `ReturnCode`) -/

inductive ReturnCode
  | SUCCESS
  | IMAGE_ALREADY_EXISTS
  | IMAGE_FLASH_FULL
  | IMAGE_W_OOB
  | IMAGE_H_OOB
  | IMAGE_NAME_IN_USE
  | IMAGE_NOT_FOUND
  | IMAGE_NOT_OPEN
  | IMAGE_PACKET_ID_ERR
  | FLASH_REMAINING
  | INVALID_COMMAND
  | MORE_ENTRIES
deriving DecidableEq, Repr

/-- The numeric value of each `ReturnCode` member, as in the Python `IntEnum`. -/
def ReturnCode.toByte : ReturnCode → Nat
  | .SUCCESS => 0x00
  | .IMAGE_ALREADY_EXISTS => 0xE1
  | .IMAGE_FLASH_FULL => 0xE2
  | .IMAGE_W_OOB => 0xE3
  | .IMAGE_H_OOB => 0xE4
  | .IMAGE_NAME_IN_USE => 0xE5
  | .IMAGE_NOT_FOUND => 0xE6
  | .IMAGE_NOT_OPEN => 0xE7
  | .IMAGE_PACKET_ID_ERR => 0xE8
  | .FLASH_REMAINING => 0xE9
  | .INVALID_COMMAND => 0xEF
  | .MORE_ENTRIES => 0xEA

/-- The Python enum constructor `ReturnCode(status)`: `some` member whose value
is `n`, or `none` when the call would raise `ValueError`. -/
def ReturnCode.ofByte (n : Nat) : Option ReturnCode :=
  if n = 0x00 then some .SUCCESS
  else if n = 0xE1 then some .IMAGE_ALREADY_EXISTS
  else if n = 0xE2 then some .IMAGE_FLASH_FULL
  else if n = 0xE3 then some .IMAGE_W_OOB
  else if n = 0xE4 then some .IMAGE_H_OOB
  else if n = 0xE5 then some .IMAGE_NAME_IN_USE
  else if n = 0xE6 then some .IMAGE_NOT_FOUND
  else if n = 0xE7 then some .IMAGE_NOT_OPEN
  else if n = 0xE8 then some .IMAGE_PACKET_ID_ERR
  else if n = 0xE9 then some .FLASH_REMAINING
  else if n = 0xEF then some .INVALID_COMMAND
  else if n = 0xEA then some .MORE_ENTRIES
  else none

def PACKET_SIZE : Nat := 32
def HEADER_SIZE : Nat := 6
def DATA_SIZE : Nat := PACKET_SIZE - HEADER_SIZE

def MODULE_CMD_LS : Nat := 0x50
def MODULE_CMD_WRITE : Nat := 0x58
def MODULE_CMD_LS_NEXT : Nat := 0x60
def MODULE_CMD_LS_ALL : Nat := 0x61

/-! ### `HIDDevice.send_packet`: packet serialization -/

/-- The wire packet built by `HIDDevice.send_packet`:
`struct.pack('<BBI', 0x09, command_id, packet_id) + data`, left-justified to
`PACKET_SIZE` with zero bytes (`ljust` pads but never truncates). -/
def send_packet (command_id packet_id : Nat) (data : List Nat) : List Nat :=
  let header := [0x09, command_id] ++ u32le packet_id
  let packet := header ++ data
  packet ++ List.replicate (PACKET_SIZE - packet.length) 0

/-! ### `HIDDevice.receive_packet` and `HIDDevice.execute_command`

The device's raw response to the single bounded read is the input byte list;
an empty list models a read timeout (`if not response`). `execute_command`
either returns normally (`Except.ok`) or raises (`Except.error`, the
`ValueError` thrown by `ReturnCode(status)` on an unknown status byte). -/

/-- `HIDDevice.receive_packet`: `none` on empty read, else status byte and
trailing payload bytes. -/
def receive_packet (response : List Nat) : Option (Nat × List Nat) :=
  match response with
  | [] => none
  | status :: data => some (status, data)

/-- `HIDDevice.execute_command`, applied to the raw bytes returned by the
single bounded read of the response packet. -/
def execute_command (response : List Nat) :
    Except Unit (ReturnCode × Option (List Nat)) :=
  match receive_packet response with
  | none => .ok (.INVALID_COMMAND, none)
  | some (status, data) =>
    match ReturnCode.ofByte status with
    | some rc => .ok (rc, some data)
    | none => .error ()

/-! ### `FileSystem.write`: chunked write

The device is modelled as an oracle `dev : Nat → ReturnCode` giving the status
it answers to the `i`-th write exchange of this call. The model records the
list of `(opcode, payload)` command exchanges actually issued, in order, and
the boolean result. -/

/-- The chunk list `[data[i:i+DATA_SIZE] for i in range(0, len(data), DATA_SIZE)]`
when `len(data) > DATA_SIZE`, else `[data]`; `fuel` bounds the recursion depth
and `dataChunks` always supplies enough. -/
def dataChunksGo : Nat → List Nat → List (List Nat)
  | 0, d => [d]
  | fuel + 1, d =>
    if d.length ≤ DATA_SIZE then [d]
    else d.take DATA_SIZE :: dataChunksGo fuel (d.drop DATA_SIZE)

def dataChunks (data : List Nat) : List (List Nat) :=
  dataChunksGo data.length data

/-- The per-chunk loop of `FileSystem.write`: issue one `MODULE_CMD_WRITE`
exchange per chunk, in order, and stop at the first non-`SUCCESS` status. -/
def writeRun (dev : Nat → ReturnCode) : List (List Nat) → Nat →
    List (Nat × List Nat) × Bool
  | [], _ => ([], true)
  | chunk :: rest, i =>
    if dev i = .SUCCESS then
      let r := writeRun dev rest (i + 1)
      ((MODULE_CMD_WRITE, chunk) :: r.1, r.2)
    else ([(MODULE_CMD_WRITE, chunk)], false)

/-- `FileSystem.write`: returns the issued exchanges and the boolean result. -/
def fs_write (dev : Nat → ReturnCode) (data : List Nat) :
    List (Nat × List Nat) × Bool :=
  writeRun dev (dataChunks data) 0

/-! ### `FileSystem.ls`: paginated listing

The device is modelled as the finite list of `(status, payload)` responses it
serves to the successive exchanges (first `MODULE_CMD_LS`, then one
`MODULE_CMD_LS_NEXT` per further exchange); running off the end of the list
models a response-read timeout, which `execute_command` reports as
`INVALID_COMMAND` with no payload. The result pairs the accumulated entries
with the number of `MODULE_CMD_LS_NEXT` exchanges issued. -/

/-- `response.decode('utf-8', errors='ignore').strip('\x00')` at byte level:
drop leading and trailing zero bytes. -/
def stripNulls (s : List Nat) : List Nat :=
  ((s.dropWhile (fun b => b == 0)).reverse.dropWhile (fun b => b == 0)).reverse

/-- Python `str.split('\x00')` at byte level (splitting on every zero byte,
keeping empty pieces, `[""]` on empty input). -/
def pySplitNullGo (acc : List Nat) : List Nat → List (List Nat)
  | [] => [acc.reverse]
  | b :: bs => if b = 0 then acc.reverse :: pySplitNullGo [] bs
               else pySplitNullGo (b :: acc) bs

def pySplitNull (s : List Nat) : List (List Nat) :=
  pySplitNullGo [] s

/-- Page parsing in `FileSystem.ls`: strip, split on zero bytes, drop empty
entries. -/
def parse_entries (payload : List Nat) : List (List Nat) :=
  (pySplitNull (stripNulls payload)).filter (fun e => e != [])

/-- The `while ret_code == MORE_ENTRIES` loop of `FileSystem.ls`: each call
issues one `MODULE_CMD_LS_NEXT` exchange (the head response, or a timeout when
the device list is exhausted). -/
def ls_collect : List (ReturnCode × List Nat) → List (List Nat) →
    List (List Nat) × Nat
  | [], acc => (acc, 1)
  | (rc, payload) :: rest, acc =>
    if rc = .SUCCESS ∨ rc = .MORE_ENTRIES then
      let acc2 := if payload ≠ [] then acc ++ parse_entries payload else acc
      if rc = .MORE_ENTRIES then
        let r := ls_collect rest acc2
        (r.1, r.2 + 1)
      else (acc2, 1)
    else (acc, 1)

/-- `FileSystem.ls` applied to the device's response pages. -/
def fs_ls (pages : List (ReturnCode × List Nat)) : List (List Nat) × Nat :=
  match pages with
  | [] => ([], 0)
  | (rc, payload) :: rest =>
    if rc = .SUCCESS ∨ rc = .MORE_ENTRIES then
      let acc := if payload ≠ [] then parse_entries payload else []
      if rc = .MORE_ENTRIES then ls_collect rest acc else (acc, 0)
    else ([], 0)

/-- Helper for stating the listing claims: pages all carrying the
"more entries" status. -/
def morePages (pls : List (List Nat)) : List (ReturnCode × List Nat) :=
  pls.map (fun p => (ReturnCode.MORE_ENTRIES, p))

/-! ### Pixel codec (`rgb565_to_rgb`, `image_to_rgb565`,
`image_to_rgb565_quantized`) -/

/-- `rgb565_to_rgb`: widen a 16-bit RGB565 value to an 8-bit triple by bit
replication. -/
def rgb565_to_rgb (rgb565 : Nat) : Nat × Nat × Nat :=
  let r5 := (rgb565 >>> 11) &&& 0x1F
  let g6 := (rgb565 >>> 5) &&& 0x3F
  let b5 := rgb565 &&& 0x1F
  ((r5 <<< 3) ||| (r5 >>> 2), (g6 <<< 2) ||| (g6 >>> 4), (b5 <<< 3) ||| (b5 >>> 2))

/-- `color_distance`: squared Euclidean distance in 8-bit RGB space (over `Int`
to model Python's signed subtraction). -/
def color_distance (c1 c2 : Nat × Nat × Nat) : Int :=
  ((c1.1 : Int) - (c2.1 : Int)) ^ 2 + ((c1.2.1 : Int) - (c2.2.1 : Int)) ^ 2 +
    ((c1.2.2 : Int) - (c2.2.2 : Int)) ^ 2

/-- The per-pixel encoding of `image_to_rgb565`:
`(r5 << 11) | (g6 << 5) | b5` with `r5 = r >> 3`, `g6 = g >> 2`, `b5 = b >> 3`. -/
def pixel_rgb565 (r g b : Nat) : Nat :=
  ((r >>> 3) <<< 11) ||| ((g >>> 2) <<< 5) ||| (b >>> 3)

/-- `struct.pack('>H', v)`: the two big-endian bytes of `v < 2^16`. -/
def packBE16 (v : Nat) : List Nat :=
  [v / 256 % 256, v % 256]

/-- The byte stream produced by `image_to_rgb565` from the image's pixel
list. -/
def image_to_rgb565 (pixels : List (Nat × Nat × Nat)) : List Nat :=
  (pixels.map (fun p => packBE16 (pixel_rgb565 p.1 p.2.1 p.2.2))).flatten

/-- The fixed palette of `image_to_rgb565_quantized` (`colors_rgb565`). -/
def palette565 : List Nat := [0xE007, 0x00F8, 0x1F00]

/-- The `for i, color in enumerate(colors_rgb)` scan of
`image_to_rgb565_quantized`: track the minimum distance seen and the palette
value achieving it, replacing only on a strictly smaller distance. -/
def quantGo (p : Nat × Nat × Nat) : List Nat → Option (Int × Nat) → Option Nat
  | [], best => best.map (fun s => s.2)
  | c565 :: rest, best =>
    let dist := color_distance p (rgb565_to_rgb c565)
    match best with
    | none => quantGo p rest (some (dist, c565))
    | some (minDist, closest) =>
      if dist < minDist then quantGo p rest (some (dist, c565))
      else quantGo p rest (some (minDist, closest))

/-- The palette value chosen for one pixel by `image_to_rgb565_quantized`
(`none` would model the `TypeError` on an empty palette; the palette has three
entries, so the scan always returns a value). -/
def quantize_pixel (p : Nat × Nat × Nat) : Option Nat :=
  quantGo p palette565 none

/-! ### Bulk transfer: phase 2 of `FileSystem.ls_all`

The serial stream is a finite byte list; reads return the next available bytes
and return nothing once the stream is exhausted (a pyserial timeout). The
output directory is an association list from file names (byte lists; the
UTF-8 decoding applied by the source to build the path is the identity on the
ASCII names of the claims) to file contents. -/

/-- A saved file: the received bytes, or the PNG preview that
`convert_raw_to_png` derives from a 32768-byte `.raw` file (the Pillow
encoding is an unmodelled pure function of the source bytes). -/
inductive FsEntry
  | bytes (data : List Nat)
  | pngRender (src : List Nat)
deriving DecidableEq, Repr

abbrev Dir := List (List Nat × FsEntry)

/-- `open(path, 'wb')` followed by a full write: create or overwrite the file
at `k`. -/
def dirInsert : Dir → List Nat → FsEntry → Dir
  | [], k, v => [(k, v)]
  | (k0, v0) :: rest, k, v =>
    if k0 = k then (k, v) :: rest else (k0, v0) :: dirInsert rest k v

/-- `os.remove(path)`. -/
def dirErase : Dir → List Nat → Dir
  | [], _ => []
  | (k0, v0) :: rest, k =>
    if k0 = k then rest else (k0, v0) :: dirErase rest k

def dirLookup : Dir → List Nat → Option FsEntry
  | [], _ => none
  | (k0, v0) :: rest, k =>
    if k0 = k then some v0 else dirLookup rest k

def dirKeys (d : Dir) : List (List Nat) :=
  d.map Prod.fst

/-- `str.lower()` on one ASCII byte. -/
def toLowerByte (b : Nat) : Nat :=
  if 65 ≤ b ∧ b ≤ 90 then b + 32 else b

/-- `os.path.splitext(name)[0]`: the name without its last extension; a name
whose only dots lead the basename has no extension. -/
def splitext_base (name : List Nat) : List Nat :=
  let r := name.reverse
  let afterDot := r.takeWhile (fun b => b != 46)
  if afterDot.length = r.length then name
  else
    let base := (r.drop (afterDot.length + 1)).reverse
    if base.all (fun b => b == 46) then name else base

def RAW_SUFFIX : List Nat := [46, 114, 97, 119]

def PNG_SUFFIX : List Nat := [46, 112, 110, 103]

/-- The post-save hook of the receive loop: when the saved path lowercases to
a `.raw` name, `convert_raw_to_png` writes `<base>.png` if and only if the
raw data has exactly `128 * 128 * 2 = 32768` bytes (otherwise it reports a
size mismatch and writes nothing). -/
def pngStep (d : Dir) (name data : List Nat) : Dir :=
  if RAW_SUFFIX.isSuffixOf (name.map toLowerByte) then
    if data.length = 32768 then
      dirInsert d (splitext_base name ++ PNG_SUFFIX) (.pngRender data)
    else d
  else d

/-- How the receive loop of `ls_all` ended. -/
inductive TermReason
  | doneSignal
  | silenceNoFiles
  | silenceAfterFiles
  | abortShortSize
  | abortDataTimeout
  | outOfFuel
deriving DecidableEq, Repr

/-- The mutable state of the receive loop: output directory contents, the
`saved_files` list, `files_received_count` and `total_bytes_received`. -/
structure LoopState where
  dir : Dir
  saved : List (List Nat)
  filesReceived : Nat
  totalBytes : Nat
deriving DecidableEq, Repr

structure RecvResult where
  state : LoopState
  timeoutErrors : Nat
  term : TermReason
deriving DecidableEq, Repr

/-- One successfully received frame: save the file, append its path to
`saved_files`, bump the counters, then attempt the PNG conversion. -/
def applyFrame (st : LoopState) (name data : List Nat) : LoopState :=
  ⟨pngStep (dirInsert st.dir name (.bytes data)) name data,
   st.saved ++ [name], st.filesReceived + 1, st.totalBytes + data.length⟩

/-- The `while True` receive loop of `FileSystem.ls_all` over the remaining
stream bytes. Per iteration: read the filename byte-by-byte up to a zero byte
(a timeout before any zero byte discards the partial name and ends the loop;
an immediate zero byte is the explicit termination signal), read the 4-byte
little-endian size (fewer than 4 bytes aborts the loop), then read the payload
in bounded chunks (a read returning nothing before `size` bytes accumulates is
a hard timeout: the partially written destination file is removed and the loop
aborts). `fuel` bounds the iteration count; every recursive step consumes at
least two stream bytes, so `stream.length + 1` is always enough. -/
def recvLoop : Nat → List Nat → LoopState → RecvResult
  | 0, _, st => ⟨st, 0, .outOfFuel⟩
  | fuel + 1, s, st =>
    let nameBytes := s.takeWhile (fun b => b != 0)
    if nameBytes.length = s.length then
      if st.filesReceived = 0 then ⟨st, 1, .silenceNoFiles⟩
      else ⟨st, 0, .silenceAfterFiles⟩
    else if nameBytes = [] then ⟨st, 0, .doneSignal⟩
    else
      let rest := s.drop (nameBytes.length + 1)
      let sizeBytes := rest.take 4
      if sizeBytes.length < 4 then ⟨st, 1, .abortShortSize⟩
      else
        let size := le32 sizeBytes
        let rest2 := rest.drop 4
        if size ≤ rest2.length then
          recvLoop fuel (rest2.drop size) (applyFrame st nameBytes (rest2.take size))
        else
          ⟨⟨dirErase (dirInsert st.dir nameBytes (.bytes rest2)) nameBytes,
            st.saved, st.filesReceived, st.totalBytes⟩, 1, .abortDataTimeout⟩

/-- The state of the filesystem at the output path before `ls_all` runs. -/
inductive OutPath
  | absent
  | file (content : List Nat)
  | directory (entries : Dir)
deriving DecidableEq, Repr

/-- The output-directory preparation of `ls_all`: an existing directory is
removed with `shutil.rmtree`, an existing plain file with `os.remove`, and
`os.makedirs` then recreates an empty directory. -/
def prepareOutputDir : OutPath → Dir
  | .directory _ => []
  | .file _ => []
  | .absent => []

/-- `FileSystem.ls_all`: prepare the output directory, then run the receive
loop on the serial stream with fresh state. (Phase 1 — the HID trigger packet
and the CDC port scan — does not touch the directory or the stream and is
outside the model.) -/
def ls_all (prior : OutPath) (stream : List Nat) : RecvResult :=
  recvLoop (stream.length + 1) stream ⟨prepareOutputDir prior, [], 0, 0⟩

/-- A well-formed transfer frame for stating the bulk-transfer claims. -/
structure Frame where
  name : List Nat
  data : List Nat
deriving DecidableEq, Repr

abbrev Frame.wf (fr : Frame) : Prop :=
  fr.name ≠ [] ∧ (∀ b ∈ fr.name, b ≠ 0) ∧ fr.data.length < 4294967296

/-- The wire bytes of one frame: `filename + 0x00 + size(u32 LE) + payload`. -/
def frameBytes (fr : Frame) : List Nat :=
  fr.name ++ [0] ++ u32le fr.data.length ++ fr.data

def framesBytes (frames : List Frame) : List Nat :=
  (frames.map frameBytes).flatten

/-- The loop state after successfully receiving `frames` from scratch. -/
def runFrames (frames : List Frame) : LoopState :=
  frames.foldl (fun st fr => applyFrame st fr.name fr.data) ⟨[], [], 0, 0⟩

/-! ## Helper lemmas -/

theorem u32le_length (n : Nat) : (u32le n).length = 4 := rfl

theorem le32_u32le {n : Nat} (h : n < 4294967296) : le32 (u32le n) = n := by
  simp only [u32le, le32]
  omega

/-! ## Claim C6: packet framing -/

/-- C6: for every opcode, a well-formed command (payload at most
`P - 6 = 26` bytes, one-byte opcode, in-range sequence number) produces a wire
packet of exactly 32 bytes: the magic byte `0x09`, the command identifier, a
4-byte little-endian sequence number, and the payload zero-padded to fill the
remaining 26 bytes. -/
theorem c6_send_packet_layout (command_id packet_id : Nat) (data : List Nat)
    (hd : data.length ≤ 26) (_hc : command_id < 256) (hp : packet_id < 4294967296) :
    (send_packet command_id packet_id data).length = 32 ∧
    ∃ seq : List Nat, seq.length = 4 ∧ le32 seq = packet_id ∧
      send_packet command_id packet_id data =
        [0x09, command_id] ++ seq ++ data ++ List.replicate (26 - data.length) 0 := by
  have hlen : ([0x09, command_id] ++ u32le packet_id ++ data).length = 6 + data.length := by
    simp [u32le]; omega
  constructor
  · simp only [send_packet, List.length_append, List.length_replicate, hlen, PACKET_SIZE]
    omega
  · refine ⟨u32le packet_id, rfl, le32_u32le hp, ?_⟩
    have hcount : PACKET_SIZE - ([0x09, command_id] ++ (u32le packet_id ++ data)).length =
        26 - data.length := by
      simp [u32le, PACKET_SIZE]
    simp only [send_packet, List.append_assoc, hcount]

/-- Witness for C6 at a concrete opcode, sequence number and payload. -/
theorem c6_witness :
    (send_packet 0x50 7 [1, 2, 3]).length = 32 := by
  exact (c6_send_packet_layout 0x50 7 [1, 2, 3] (by decide) (by decide) (by decide)).1

/-! ## Claim C5: `execute_command` error handling -/

/-- C5 counterexample: the claim says `execute_command` never raises past this
boundary, every failure being representable as a status code; but a
successfully read response whose status byte `0x01` is not a member of the
`ReturnCode` enumeration makes `ReturnCode(status)` raise `ValueError`
(modelled as `Except.error`). -/
theorem c5_counterexample :
    execute_command (0x01 :: List.replicate 31 0) = .error () := by
  rfl

/-- C5 (amended): on a read timeout or empty read, `execute_command` returns
the no-response outcome — the `INVALID_COMMAND` code with no payload — without
raising; on every successful read whose status byte is a member of the
`ReturnCode` enumeration, it returns that raw status byte as the enumerated
return code, passed through without reinterpretation, plus the trailing bytes
as payload. -/
theorem c5_execute_command_amended (response : List Nat) :
    (response = [] → execute_command response = .ok (.INVALID_COMMAND, none)) ∧
    (∀ status data rc, response = status :: data →
      ReturnCode.ofByte status = some rc →
      execute_command response = .ok (rc, some data)) := by
  constructor
  · intro h; subst h; rfl
  · intro status data rc hresp hof
    subst hresp
    simp [execute_command, receive_packet, hof]

/-- Witness for C5 on a concrete timeout and a concrete successful read. -/
theorem c5_witness :
    execute_command [] = .ok (.INVALID_COMMAND, none) ∧
    execute_command [0xEA, 1, 2] = .ok (.MORE_ENTRIES, some [1, 2]) :=
  ⟨(c5_execute_command_amended []).1 rfl,
   (c5_execute_command_amended [0xEA, 1, 2]).2 0xEA [1, 2] .MORE_ENTRIES rfl (by decide)⟩

/-! ## Claim C7: chunked write -/

theorem dataChunksGo_spec (fuel : Nat) : ∀ d : List Nat, d.length ≤ 26 * fuel + 26 →
    (dataChunksGo fuel d).flatten = d ∧
    (∀ c ∈ dataChunksGo fuel d, c.length ≤ 26) ∧
    (dataChunksGo fuel d).length =
      (if d.length = 0 then 1 else (d.length + 25) / 26) := by
  have hDS : DATA_SIZE = 26 := rfl
  induction fuel with
  | zero =>
    intro d hd
    simp only [Nat.mul_zero, Nat.zero_add] at hd
    simp only [dataChunksGo]
    refine ⟨by simp, by simpa using hd, ?_⟩
    simp only [List.length_singleton]
    split <;> omega
  | succ fuel ih =>
    intro d hd
    by_cases hle : d.length ≤ DATA_SIZE
    · simp only [dataChunksGo, if_pos hle]
      rw [hDS] at hle
      refine ⟨by simp, by simpa using hle, ?_⟩
      simp only [List.length_singleton]
      split <;> omega
    · simp only [dataChunksGo, if_neg hle]
      rw [hDS] at hle ⊢
      have hgt : 26 < d.length := Nat.lt_of_not_le hle
      have hdrop : (d.drop 26).length ≤ 26 * fuel + 26 := by
        simp only [List.length_drop]; omega
      obtain ⟨ih1, ih2, ih3⟩ := ih (d.drop 26) hdrop
      simp only [List.length_drop] at ih3
      refine ⟨?_, ?_, ?_⟩
      · simp only [List.flatten_cons, ih1, List.take_append_drop]
      · intro c hc
        simp only [List.mem_cons] at hc
        rcases hc with rfl | hc
        · simp [List.length_take]
        · exact ih2 c hc
      · simp only [List.length_cons, ih3]
        split_ifs <;> omega

theorem dataChunks_spec (data : List Nat) :
    (dataChunks data).flatten = data ∧
    (∀ c ∈ dataChunks data, c.length ≤ 26) ∧
    (dataChunks data).length =
      (if data.length = 0 then 1 else (data.length + 25) / 26) :=
  dataChunksGo_spec data.length data (by omega)

theorem writeRun_all_success (dev : Nat → ReturnCode) :
    ∀ (chunks : List (List Nat)) (i : Nat),
    (∀ j, j < chunks.length → dev (i + j) = .SUCCESS) →
    writeRun dev chunks i = (chunks.map (fun c => (MODULE_CMD_WRITE, c)), true) := by
  intro chunks
  induction chunks with
  | nil => intro i _; rfl
  | cons c cs ih =>
    intro i h
    have h0 : dev i = .SUCCESS := by simpa using h 0 (by simp)
    simp only [writeRun, h0, if_true, List.map_cons]
    have := ih (i + 1) (fun j hj => by
      have := h (j + 1) (by simpa using Nat.succ_lt_succ hj)
      simpa [Nat.add_assoc, Nat.add_comm 1 j] using this)
    rw [this]

theorem writeRun_abort (dev : Nat → ReturnCode) :
    ∀ (chunks : List (List Nat)) (i k : Nat),
    k < chunks.length → (∀ j, j < k → dev (i + j) = .SUCCESS) →
    dev (i + k) ≠ .SUCCESS →
    writeRun dev chunks i =
      ((chunks.take (k + 1)).map (fun c => (MODULE_CMD_WRITE, c)), false) := by
  intro chunks
  induction chunks with
  | nil => intro i k hk; simp at hk
  | cons c cs ih =>
    intro i k hk hpre hfail
    cases k with
    | zero =>
      have h0 : ¬ dev i = .SUCCESS := by simpa using hfail
      simp only [writeRun, h0, if_false, List.take_succ_cons, List.take_zero,
        List.map_cons, List.map_nil]
    | succ k =>
      have h0 : dev i = .SUCCESS := by simpa using hpre 0 (by omega)
      simp only [writeRun, h0, if_true, List.take_succ_cons, List.map_cons]
      have := ih (i + 1) k (by simpa using Nat.lt_of_succ_lt_succ hk)
        (fun j hj => by
          have := hpre (j + 1) (by omega)
          simpa [Nat.add_assoc, Nat.add_comm 1 j] using this)
        (by
          intro hcon
          exact hfail (by simpa [Nat.add_assoc, Nat.add_comm 1 k] using hcon))
      rw [this]

theorem writeRun_true_iff (dev : Nat → ReturnCode) :
    ∀ (chunks : List (List Nat)) (i : Nat),
    (writeRun dev chunks i).2 = true ↔
      ∀ j, j < chunks.length → dev (i + j) = .SUCCESS := by
  intro chunks
  induction chunks with
  | nil => intro i; simp [writeRun]
  | cons c cs ih =>
    intro i
    by_cases h0 : dev i = .SUCCESS
    · simp only [writeRun, h0, if_true]
      rw [ih (i + 1)]
      constructor
      · intro h j hj
        cases j with
        | zero => simpa using h0
        | succ j =>
          have := h j (by simpa using Nat.lt_of_succ_lt_succ hj)
          simpa [Nat.add_assoc, Nat.add_comm 1 j] using this
      · intro h j hj
        have := h (j + 1) (by simpa using Nat.succ_lt_succ hj)
        simpa [Nat.add_assoc, Nat.add_comm 1 j] using this
    · simp only [writeRun, h0, if_false]
      constructor
      · intro h; simp at h
      · intro h
        exact absurd (by simpa using h 0 (by simp)) h0

/-- C7: `FileSystem.write` splits `data` into consecutive chunks of at most
26 bytes whose concatenation is `data` (exactly `ceil(L / 26)` of them, one
empty chunk when `L = 0`); when every exchange answers success it issues one
write-opcode exchange per chunk, in order; it aborts at the first chunk
answered non-success without issuing later chunks and returns `False`; and it
returns `True` exactly when every issued chunk was answered success. -/
theorem c7_fs_write_spec (dev : Nat → ReturnCode) (data : List Nat) :
    ((dataChunks data).flatten = data ∧
      (∀ c ∈ dataChunks data, c.length ≤ 26) ∧
      (dataChunks data).length =
        (if data.length = 0 then 1 else (data.length + 25) / 26)) ∧
    ((∀ i, i < (dataChunks data).length → dev i = .SUCCESS) →
      fs_write dev data =
        ((dataChunks data).map (fun c => (MODULE_CMD_WRITE, c)), true)) ∧
    (∀ k, k < (dataChunks data).length →
      (∀ i, i < k → dev i = .SUCCESS) → dev k ≠ .SUCCESS →
      fs_write dev data =
        (((dataChunks data).take (k + 1)).map (fun c => (MODULE_CMD_WRITE, c)), false)) ∧
    ((fs_write dev data).2 = true ↔
      ∀ i, i < (dataChunks data).length → dev i = .SUCCESS) := by
  refine ⟨dataChunks_spec data, ?_, ?_, ?_⟩
  · intro h
    exact writeRun_all_success dev (dataChunks data) 0 (fun j hj => by
      simpa using h j hj)
  · intro k hk hpre hfail
    exact writeRun_abort dev (dataChunks data) 0 k hk
      (fun j hj => by simpa using hpre j hj) (by simpa using hfail)
  · have := writeRun_true_iff dev (dataChunks data) 0
    simpa [fs_write] using this

/-- Witness for C7: a 60-byte payload against a device failing the second
exchange issues exactly two write exchanges and reports failure. -/
theorem c7_witness :
    fs_write (fun i => if i = 1 then ReturnCode.IMAGE_FLASH_FULL else .SUCCESS)
        (List.replicate 60 7) =
      ([(MODULE_CMD_WRITE, List.replicate 26 7), (MODULE_CMD_WRITE, List.replicate 26 7)],
        false) := by
  have h := (c7_fs_write_spec
    (fun i => if i = 1 then ReturnCode.IMAGE_FLASH_FULL else .SUCCESS)
    (List.replicate 60 7)).2.2.1 1 (by decide)
    (by intro i hi; interval_cases i; rfl) (by decide)
  rw [h]
  decide

/-! ## Claim C8: paginated listing -/

theorem parse_entries_nil : parse_entries [] = [] := rfl

theorem ls_collect_acc (rc : ReturnCode) (payload : List Nat)
    (rest : List (ReturnCode × List Nat)) (acc : List (List Nat)) :
    ls_collect ((rc, payload) :: rest) acc =
      if rc = .SUCCESS ∨ rc = .MORE_ENTRIES then
        if rc = .MORE_ENTRIES then
          ((ls_collect rest (acc ++ parse_entries payload)).1,
           (ls_collect rest (acc ++ parse_entries payload)).2 + 1)
        else (acc ++ parse_entries payload, 1)
      else (acc, 1) := by
  by_cases hp : payload = []
  · subst hp
    simp [ls_collect, parse_entries_nil]
  · simp [ls_collect, hp]

theorem morePages_cons (p : List Nat) (ps : List (List Nat)) :
    morePages (p :: ps) = (ReturnCode.MORE_ENTRIES, p) :: morePages ps := rfl

theorem ls_collect_more (pls : List (List Nat)) :
    ∀ (tail : List (ReturnCode × List Nat)) (acc : List (List Nat)),
    ls_collect (morePages pls ++ tail) acc =
      ((ls_collect tail (acc ++ (pls.map parse_entries).flatten)).1,
       (ls_collect tail (acc ++ (pls.map parse_entries).flatten)).2 + pls.length) := by
  induction pls with
  | nil => intro tail acc; simp [morePages]
  | cons p ps ih =>
    intro tail acc
    rw [morePages_cons, List.cons_append, ls_collect_acc]
    rw [if_pos (Or.inr rfl), if_pos rfl]
    rw [ih tail (acc ++ parse_entries p)]
    simp only [List.map_cons, List.flatten_cons, List.append_assoc, List.length_cons,
      Prod.mk.injEq]
    exact ⟨trivial, by omega⟩

/-- C8: `FileSystem.ls` appends, in receive order, the non-empty
null-separated name substrings of each page's payload; it issues the
list-continuation command exactly once per "more entries" page, stops after a
plain-success page (ignoring anything the device might send afterwards), and
on any other status returns whatever was accumulated so far without raising. -/
theorem c8_fs_ls_spec (pls : List (List Nat)) (lastPl : List Nat)
    (junk : List (ReturnCode × List Nat)) (rc : ReturnCode) :
    (fs_ls (morePages pls ++ (ReturnCode.SUCCESS, lastPl) :: junk) =
      ((pls.map parse_entries).flatten ++ parse_entries lastPl, pls.length)) ∧
    (rc ≠ .SUCCESS → rc ≠ .MORE_ENTRIES →
      fs_ls (morePages pls ++ (rc, lastPl) :: junk) =
        ((pls.map parse_entries).flatten, pls.length)) := by
  have hfs : ∀ (p : List Nat) (rest : List (ReturnCode × List Nat)),
      fs_ls ((ReturnCode.MORE_ENTRIES, p) :: rest) =
        ((ls_collect rest (parse_entries p)).1,
         (ls_collect rest (parse_entries p)).2) := by
    intro p rest
    by_cases hp : p = []
    · subst hp; simp [fs_ls, parse_entries_nil]
    · simp [fs_ls, hp]
  constructor
  · cases pls with
    | nil =>
      by_cases hl : lastPl = []
      · subst hl; simp [morePages, fs_ls, parse_entries_nil]
      · simp [morePages, fs_ls, hl]
    | cons p ps =>
      rw [morePages_cons, List.cons_append, hfs, ls_collect_more ps, ls_collect_acc]
      rw [if_pos (Or.inl rfl), if_neg (by intro h; exact ReturnCode.noConfusion h)]
      simp only [List.map_cons, List.flatten_cons, List.length_cons,
        List.append_assoc, Prod.mk.injEq]
      exact ⟨trivial, by omega⟩
  · intro h1 h2
    have hno : ¬ (rc = .SUCCESS ∨ rc = .MORE_ENTRIES) := by
      rintro (h | h)
      · exact h1 h
      · exact h2 h
    cases pls with
    | nil =>
      simp [morePages, fs_ls, hno]
    | cons p ps =>
      rw [morePages_cons, List.cons_append, hfs, ls_collect_more ps, ls_collect_acc]
      rw [if_neg hno]
      simp only [List.map_cons, List.flatten_cons, List.length_cons, Prod.mk.injEq]
      exact ⟨trivial, by omega⟩

/-- Witness for C8: the spec's example pages, plus an error page cutting a
listing short. -/
theorem c8_witness :
    fs_ls [(ReturnCode.MORE_ENTRIES, [97, 0, 98, 0]), (ReturnCode.SUCCESS, [99, 0])] =
      ([[97], [98], [99]], 1) ∧
    fs_ls [(ReturnCode.MORE_ENTRIES, [97, 0, 98, 0]), (ReturnCode.IMAGE_NOT_FOUND, [99, 0])] =
      ([[97], [98]], 1) := by
  constructor
  · have h := (c8_fs_ls_spec [[97, 0, 98, 0]] [99, 0] [] ReturnCode.SUCCESS).1
    revert h
    decide
  · have h := (c8_fs_ls_spec [[97, 0, 98, 0]] [99, 0] [] ReturnCode.IMAGE_NOT_FOUND).2
      (by decide) (by decide)
    revert h
    decide

/-! ## Bitwise helper lemmas for the pixel codec -/

theorem lor_shiftLeft_add (a b n : Nat) (hb : b < 2 ^ n) :
    (a <<< n) ||| b = a * 2 ^ n + b := by
  apply Nat.eq_of_testBit_eq
  intro i
  rw [Nat.testBit_lor, Nat.testBit_shiftLeft, Nat.mul_comm,
    Nat.testBit_mul_pow_two_add a hb i]
  by_cases hi : i < n
  · have : ¬ n ≤ i := by omega
    simp [hi, this]
  · have hn : n ≤ i := by omega
    have hbf : b.testBit i = false :=
      Nat.testBit_lt_two_pow (lt_of_lt_of_le hb (Nat.pow_le_pow_right (by norm_num) hn))
    simp [hi, hn, hbf]

theorem lor_eq_add_of_mod (x y n : Nat) (hx : x % 2 ^ n = 0) (hy : y < 2 ^ n) :
    x ||| y = x + y := by
  have hdvd : 2 ^ n ∣ x := Nat.dvd_of_mod_eq_zero hx
  have hrw : x = (x / 2 ^ n) <<< n := by
    rw [Nat.shiftLeft_eq, Nat.div_mul_cancel hdvd]
  rw [hrw, lor_shiftLeft_add _ _ _ hy, ← Nat.shiftLeft_eq, ← hrw]

theorem and_31_eq_mod (x : Nat) : x &&& 31 = x % 32 := by
  have h := Nat.and_pow_two_sub_one_eq_mod x 5
  norm_num at h
  exact h

theorem and_63_eq_mod (x : Nat) : x &&& 63 = x % 64 := by
  have h := Nat.and_pow_two_sub_one_eq_mod x 6
  norm_num at h
  exact h

/-- 5-bit component round trip: widening by bit replication then truncating
recovers the component. -/
theorem comp5_roundtrip : ∀ x, x < 32 → ((x <<< 3) ||| (x >>> 2)) >>> 3 = x := by
  decide

/-- 6-bit component round trip. -/
theorem comp6_roundtrip : ∀ x, x < 64 → ((x <<< 2) ||| (x >>> 4)) >>> 2 = x := by
  decide

/-- The bit-level pixel encoding in arithmetic form. -/
theorem pixel_rgb565_arith (r g b : Nat) (hg : g < 256) (hb : b < 256) :
    pixel_rgb565 r g b = (r / 8) * 2048 + (g / 4) * 32 + b / 8 := by
  unfold pixel_rgb565
  rw [Nat.shiftRight_eq_div_pow r 3, Nat.shiftRight_eq_div_pow g 2,
    Nat.shiftRight_eq_div_pow b 3]
  have hB : (g / 2 ^ 2) <<< 5 < 2 ^ 11 := by
    rw [Nat.shiftLeft_eq]
    have : g / 2 ^ 2 ≤ 63 := by omega
    calc g / 2 ^ 2 * 2 ^ 5 ≤ 63 * 2 ^ 5 := Nat.mul_le_mul_right _ this
      _ < 2 ^ 11 := by norm_num
  rw [lor_shiftLeft_add _ _ _ hB]
  have hmod : (r / 2 ^ 3 * 2 ^ 11 + (g / 2 ^ 2) <<< 5) % 2 ^ 5 = 0 := by
    rw [Nat.shiftLeft_eq]
    omega
  have hC : b / 2 ^ 3 < 2 ^ 5 := by
    have : 2 ^ 3 * 2 ^ 5 = 2 ^ 8 := by norm_num
    omega
  rw [lor_eq_add_of_mod _ _ 5 hmod hC, Nat.shiftLeft_eq]
  norm_num

/-! ## Claim C9: pixel encoder and palette quantizer -/

/-- C9: the pixel encoder maps every 8-bit RGB triple to
`((r >> 3) << 11) | ((g >> 2) << 5) | (b >> 3)` (stated in arithmetic form),
a 16-bit value serialized big-endian on the wire; `(255, 255, 255)` encodes to
`0xFFFF`; and the quantizing variant deterministically selects the first
(lowest-indexed) palette entry achieving the minimum squared Euclidean
distance in 8-bit RGB space (determinism holds because the scan is a pure
function of the pixel). -/
theorem c9_pixel_codec_spec (r g b : Nat)
    (hr : r < 256) (hg : g < 256) (hb : b < 256) :
    (pixel_rgb565 r g b = (r / 8) * 2048 + (g / 4) * 32 + b / 8) ∧
    (pixel_rgb565 r g b < 65536 ∧
      image_to_rgb565 [(r, g, b)] =
        [pixel_rgb565 r g b / 256, pixel_rgb565 r g b % 256]) ∧
    (pixel_rgb565 255 255 255 = 0xFFFF) ∧
    ((quantize_pixel (r, g, b) = some 0xE007 ∧
        color_distance (r, g, b) (rgb565_to_rgb 0xE007) ≤
          color_distance (r, g, b) (rgb565_to_rgb 0x00F8) ∧
        color_distance (r, g, b) (rgb565_to_rgb 0xE007) ≤
          color_distance (r, g, b) (rgb565_to_rgb 0x1F00)) ∨
      (quantize_pixel (r, g, b) = some 0x00F8 ∧
        color_distance (r, g, b) (rgb565_to_rgb 0x00F8) <
          color_distance (r, g, b) (rgb565_to_rgb 0xE007) ∧
        color_distance (r, g, b) (rgb565_to_rgb 0x00F8) ≤
          color_distance (r, g, b) (rgb565_to_rgb 0x1F00)) ∨
      (quantize_pixel (r, g, b) = some 0x1F00 ∧
        color_distance (r, g, b) (rgb565_to_rgb 0x1F00) <
          color_distance (r, g, b) (rgb565_to_rgb 0xE007) ∧
        color_distance (r, g, b) (rgb565_to_rgb 0x1F00) <
          color_distance (r, g, b) (rgb565_to_rgb 0x00F8))) := by
  have harith := pixel_rgb565_arith r g b hg hb
  have hv : pixel_rgb565 r g b < 65536 := by rw [harith]; omega
  refine ⟨harith, ⟨hv, ?_⟩, by decide, ?_⟩
  · have hcollapse : pixel_rgb565 r g b / 256 % 256 = pixel_rgb565 r g b / 256 :=
      Nat.mod_eq_of_lt (by omega)
    simp [image_to_rgb565, packBE16, hcollapse]
  · simp only [quantize_pixel, palette565, quantGo, Option.map_some]
    split_ifs with h1 h2 h3
    · exact Or.inr (Or.inr ⟨rfl, by omega, by omega⟩)
    · exact Or.inr (Or.inl ⟨rfl, by omega, by omega⟩)
    · exact Or.inr (Or.inr ⟨rfl, by omega, by omega⟩)
    · exact Or.inl ⟨rfl, by omega, by omega⟩

/-- Witness for C9 at the spec's example color. -/
theorem c9_witness : image_to_rgb565 [(255, 255, 255)] = [0xFF, 0xFF] := by
  have h := (c9_pixel_codec_spec 255 255 255 (by decide) (by decide) (by decide)).2.1.2
  rw [h]
  decide

/-! ## Claim C10: 565 → 888 → 565 round trip -/

/-- C10: for every 16-bit RGB565 value, widening it to an 8-bit triple by bit
replication (`rgb565_to_rgb`) and re-encoding that triple with the 5/6/5
truncation yields the original value. -/
theorem c10_rgb565_roundtrip (v : Nat) (h : v < 65536) :
    pixel_rgb565 (rgb565_to_rgb v).1 (rgb565_to_rgb v).2.1 (rgb565_to_rgb v).2.2 = v := by
  have ha : (v >>> 11) &&& 31 < 32 := by
    have := Nat.and_le_right (n := v >>> 11) (m := 31); omega
  have hgg : (v >>> 5) &&& 63 < 64 := by
    have := Nat.and_le_right (n := v >>> 5) (m := 63); omega
  have hcc : v &&& 31 < 32 := by
    have := Nat.and_le_right (n := v) (m := 31); omega
  show pixel_rgb565
      ((((v >>> 11) &&& 31) <<< 3) ||| (((v >>> 11) &&& 31) >>> 2))
      ((((v >>> 5) &&& 63) <<< 2) ||| (((v >>> 5) &&& 63) >>> 4))
      (((v &&& 31) <<< 3) ||| ((v &&& 31) >>> 2)) = v
  unfold pixel_rgb565
  rw [comp5_roundtrip _ ha, comp6_roundtrip _ hgg, comp5_roundtrip _ hcc]
  rw [and_31_eq_mod, and_63_eq_mod, and_31_eq_mod]
  rw [Nat.shiftRight_eq_div_pow, Nat.shiftRight_eq_div_pow]
  have hB : (v / 2 ^ 5 % 64) <<< 5 < 2 ^ 11 := by
    rw [Nat.shiftLeft_eq]; omega
  rw [lor_shiftLeft_add _ _ 11 hB]
  have hmod : (v / 2 ^ 11 % 32 * 2 ^ 11 + (v / 2 ^ 5 % 64) <<< 5) % 2 ^ 5 = 0 := by
    rw [Nat.shiftLeft_eq]; omega
  have hC : v % 32 < 2 ^ 5 := by omega
  rw [lor_eq_add_of_mod _ _ 5 hmod hC, Nat.shiftLeft_eq]
  omega

/-- Witness for C10 at a concrete 16-bit value. -/
theorem c10_witness :
    pixel_rgb565 (rgb565_to_rgb 0xABCD).1 (rgb565_to_rgb 0xABCD).2.1
      (rgb565_to_rgb 0xABCD).2.2 = 0xABCD :=
  c10_rgb565_roundtrip 0xABCD (by decide)

/-! ## Bulk transfer: receive-loop lemmas -/

theorem takeWhile_append_zero (a b : List Nat) (ha : ∀ x ∈ a, x ≠ 0) :
    (a ++ 0 :: b).takeWhile (fun c => c != 0) = a := by
  induction a with
  | nil => simp
  | cons x xs ih =>
    have hx : x ≠ 0 := ha x (by simp)
    simp only [List.cons_append, List.takeWhile_cons]
    have hxb : (x != 0) = true := by simpa using hx
    rw [hxb]
    simp only [if_true]
    rw [ih (fun y hy => ha y (by simp [hy]))]

theorem drop_append_zero (a b : List Nat) :
    (a ++ 0 :: b).drop (a.length + 1) = b := by
  rw [show a ++ 0 :: b = (a ++ [0]) ++ b by simp]
  exact List.drop_left' (by simp)

/-- One complete frame at the head of the stream is received and saved, and
the loop recurs on the remainder with one unit of fuel consumed. -/
theorem recvLoop_frame (fuel : Nat) (name data rest : List Nat) (st : LoopState)
    (hname : name ≠ []) (hzero : ∀ x ∈ name, x ≠ 0)
    (hlen : data.length < 4294967296) :
    recvLoop (fuel + 1) (name ++ [0] ++ u32le data.length ++ data ++ rest) st =
      recvLoop fuel rest (applyFrame st name data) := by
  have hs : name ++ [0] ++ u32le data.length ++ data ++ rest =
      name ++ 0 :: (u32le data.length ++ (data ++ rest)) := by
    simp [List.append_assoc]
  rw [hs]
  have htw := takeWhile_append_zero name (u32le data.length ++ (data ++ rest)) hzero
  have hdrop := drop_append_zero name (u32le data.length ++ (data ++ rest))
  have htake4 : (u32le data.length ++ (data ++ rest)).take 4 = u32le data.length :=
    List.take_left' (u32le_length data.length)
  have hdrop4 : (u32le data.length ++ (data ++ rest)).drop 4 = data ++ rest :=
    List.drop_left' (u32le_length data.length)
  have hcondA : ¬ name.length = (name ++ 0 :: (u32le data.length ++ (data ++ rest))).length := by
    simp only [List.length_append, List.length_cons]
    omega
  simp only [recvLoop, htw, hdrop, htake4, hdrop4, le32_u32le hlen]
  rw [if_neg hcondA, if_neg hname]
  rw [if_neg (by rw [u32le_length]; omega)]
  rw [if_pos (by simp)]
  rw [List.take_left, List.drop_left]

/-- A frame whose size field arrives truncated (and is the end of the stream)
makes the loop abort without touching the state. -/
theorem recvLoop_shortSize (fuel : Nat) (name szBytes : List Nat) (st : LoopState)
    (hname : name ≠ []) (hzero : ∀ x ∈ name, x ≠ 0)
    (hsz : szBytes.length < 4) :
    recvLoop (fuel + 1) (name ++ [0] ++ szBytes) st = ⟨st, 1, .abortShortSize⟩ := by
  have hs : name ++ [0] ++ szBytes = name ++ 0 :: szBytes := by simp
  rw [hs]
  have htw := takeWhile_append_zero name szBytes hzero
  have hdrop := drop_append_zero name szBytes
  have htake4 : szBytes.take 4 = szBytes := List.take_of_length_le (by omega)
  have hcondA : ¬ name.length = (name ++ 0 :: szBytes).length := by
    simp only [List.length_append, List.length_cons]
    omega
  simp only [recvLoop, htw, hdrop, htake4]
  rw [if_neg hcondA, if_neg hname, if_pos hsz]

/-- A frame whose size field declares more bytes than the stream still holds
makes the loop write the partial file, remove it, and abort. -/
theorem recvLoop_dataTimeout (fuel : Nat) (name pd : List Nat) (n : Nat)
    (st : LoopState) (hname : name ≠ []) (hzero : ∀ x ∈ name, x ≠ 0)
    (hn : n < 4294967296) (hshort : pd.length < n) :
    recvLoop (fuel + 1) (name ++ [0] ++ u32le n ++ pd) st =
      ⟨⟨dirErase (dirInsert st.dir name (.bytes pd)) name,
        st.saved, st.filesReceived, st.totalBytes⟩, 1, .abortDataTimeout⟩ := by
  have hs : name ++ [0] ++ u32le n ++ pd = name ++ 0 :: (u32le n ++ pd) := by
    simp [List.append_assoc]
  rw [hs]
  have htw := takeWhile_append_zero name (u32le n ++ pd) hzero
  have hdrop := drop_append_zero name (u32le n ++ pd)
  have htake4 : (u32le n ++ pd).take 4 = u32le n := List.take_left' (u32le_length n)
  have hdrop4 : (u32le n ++ pd).drop 4 = pd := List.drop_left' (u32le_length n)
  have hcondA : ¬ name.length = (name ++ 0 :: (u32le n ++ pd)).length := by
    simp only [List.length_append, List.length_cons]
    omega
  simp only [recvLoop, htw, hdrop, htake4, hdrop4, le32_u32le hn]
  rw [if_neg hcondA, if_neg hname]
  rw [if_neg (by rw [u32le_length]; omega)]
  rw [if_neg (by omega)]

/-- Receiving a list of complete frames composes: the loop processes them one
by one and continues on the remaining stream. -/
theorem recvLoop_frames (frames : List Frame) :
    ∀ (fuel : Nat) (tail : List Nat) (st : LoopState),
    (∀ fr ∈ frames, fr.wf) →
    recvLoop (fuel + frames.length) (framesBytes frames ++ tail) st =
      recvLoop fuel tail
        (frames.foldl (fun s fr => applyFrame s fr.name fr.data) st) := by
  induction frames with
  | nil => intro fuel tail st _; simp [framesBytes]
  | cons fr frs ih =>
    intro fuel tail st h
    obtain ⟨h1, h2, h3⟩ := h fr (by simp)
    have hstream : framesBytes (fr :: frs) ++ tail =
        fr.name ++ [0] ++ u32le fr.data.length ++ fr.data ++ (framesBytes frs ++ tail) := by
      simp [framesBytes, frameBytes, List.append_assoc]
    rw [hstream]
    rw [show fuel + (fr :: frs).length = (fuel + frs.length) + 1 by
      simp only [List.length_cons]; omega]
    rw [recvLoop_frame (fuel + frs.length) fr.name fr.data _ st h1 h2 h3]
    rw [ih fuel tail _ (fun f hf => h f (by simp [hf]))]
    simp only [List.foldl_cons]

theorem frames_length_le (frames : List Frame) :
    frames.length ≤ (framesBytes frames).length := by
  induction frames with
  | nil => simp [framesBytes]
  | cons fr frs ih =>
    simp only [framesBytes, List.map_cons, List.flatten_cons, List.length_append,
      List.length_cons]
    have hfr : 1 ≤ (frameBytes fr).length := by
      simp only [frameBytes, List.length_append, u32le_length]
      omega
    simp only [framesBytes] at ih
    omega

theorem prepareOutputDir_eq (p : OutPath) : prepareOutputDir p = [] := by
  cases p <;> rfl

theorem runFrames_saved (frames : List Frame) :
    ∀ st : LoopState,
    (frames.foldl (fun s fr => applyFrame s fr.name fr.data) st).saved =
      st.saved ++ frames.map Frame.name := by
  induction frames with
  | nil => intro st; simp
  | cons fr frs ih =>
    intro st
    simp only [List.foldl_cons, List.map_cons]
    rw [ih]
    simp [applyFrame]

/-! ### Directory association-list lemmas -/

theorem dirInsert_mem_keys (d : Dir) (k : List Nat) (v : FsEntry) (nm : List Nat) :
    nm ∈ dirKeys (dirInsert d k v) ↔ nm ∈ dirKeys d ∨ nm = k := by
  induction d with
  | nil => simp [dirInsert, dirKeys]
  | cons kv rest ih =>
    obtain ⟨k0, v0⟩ := kv
    by_cases hk : k0 = k
    · subst hk
      simp only [dirKeys, List.map_cons, List.mem_cons] at ih ⊢
      simp only [dirInsert, if_true]
      simp only [List.map_cons, List.mem_cons]
      tauto
    · simp only [dirInsert, if_neg hk]
      simp only [dirKeys, List.map_cons, List.mem_cons] at ih ⊢
      rw [ih]
      tauto

theorem dirInsert_keys_nodup (d : Dir) (k : List Nat) (v : FsEntry)
    (h : (dirKeys d).Nodup) : (dirKeys (dirInsert d k v)).Nodup := by
  induction d with
  | nil => simp [dirInsert, dirKeys]
  | cons kv rest ih =>
    obtain ⟨k0, v0⟩ := kv
    simp only [dirKeys, List.map_cons, List.nodup_cons] at h
    obtain ⟨hk0, hrest⟩ := h
    by_cases hk : k0 = k
    · subst hk
      simp only [dirInsert, if_true, dirKeys, List.map_cons, List.nodup_cons]
      exact ⟨hk0, hrest⟩
    · simp only [dirInsert, if_neg hk, dirKeys, List.map_cons, List.nodup_cons]
      refine ⟨?_, ih hrest⟩
      intro hmem
      rcases (dirInsert_mem_keys rest k v k0).mp hmem with hcase | hcase
      · exact hk0 hcase
      · exact hk hcase

theorem dirLookup_eq_none (d : Dir) (k : List Nat) (h : k ∉ dirKeys d) :
    dirLookup d k = none := by
  induction d with
  | nil => rfl
  | cons kv rest ih =>
    obtain ⟨k0, v0⟩ := kv
    simp only [dirKeys, List.map_cons, List.mem_cons] at h
    push_neg at h
    simp only [dirLookup, if_neg (Ne.symm h.1)]
    exact ih h.2

theorem dirErase_lookup_self (d : Dir) (k : List Nat)
    (h : (dirKeys d).Nodup) : dirLookup (dirErase d k) k = none := by
  induction d with
  | nil => rfl
  | cons kv rest ih =>
    obtain ⟨k0, v0⟩ := kv
    simp only [dirKeys, List.map_cons, List.nodup_cons] at h
    obtain ⟨hk0, hrest⟩ := h
    by_cases hk : k0 = k
    · subst hk
      simp only [dirErase, if_true]
      exact dirLookup_eq_none rest k0 hk0
    · simp only [dirErase, if_neg hk, dirLookup, if_neg hk]
      exact ih hrest

theorem dirErase_dirInsert_lookup_ne (d : Dir) (k : List Nat) (v : FsEntry)
    (nm : List Nat) (hne : nm ≠ k) :
    dirLookup (dirErase (dirInsert d k v) k) nm = dirLookup d nm := by
  induction d with
  | nil =>
    simp only [dirInsert, dirErase, if_true]
  | cons kv rest ih =>
    obtain ⟨k0, v0⟩ := kv
    by_cases hk : k0 = k
    · subst hk
      simp only [dirInsert, if_true, dirErase, if_true, dirLookup,
        if_neg (Ne.symm hne)]
    · simp only [dirInsert, if_neg hk, dirErase, if_neg hk, dirLookup]
      by_cases hnm : k0 = nm
      · simp only [if_pos hnm]
      · simp only [if_neg hnm]
        exact ih

theorem pngStep_keys_nodup (d : Dir) (name data : List Nat)
    (h : (dirKeys d).Nodup) : (dirKeys (pngStep d name data)).Nodup := by
  unfold pngStep
  split_ifs with h1 h2
  · exact dirInsert_keys_nodup _ _ _ h
  · exact h
  · exact h

theorem applyFrame_keys_nodup (st : LoopState) (name data : List Nat)
    (h : (dirKeys st.dir).Nodup) :
    (dirKeys (applyFrame st name data).dir).Nodup := by
  unfold applyFrame
  exact pngStep_keys_nodup _ _ _ (dirInsert_keys_nodup _ _ _ h)

theorem runFrames_keys_nodup (frames : List Frame) :
    ∀ st : LoopState, (dirKeys st.dir).Nodup →
    (dirKeys (frames.foldl (fun s fr => applyFrame s fr.name fr.data) st).dir).Nodup := by
  induction frames with
  | nil => intro st h; exact h
  | cons fr frs ih =>
    intro st h
    simp only [List.foldl_cons]
    exact ih _ (applyFrame_keys_nodup st fr.name fr.data h)

/-- `ls_all` on a stream beginning with complete frames: the directory is
prepared empty and the frames are received, leaving the loop to continue on
the rest of the stream. -/
theorem ls_all_frames (prior : OutPath) (frames : List Frame) (tail : List Nat)
    (hwf : ∀ fr ∈ frames, fr.wf) :
    ls_all prior (framesBytes frames ++ tail) =
      recvLoop ((framesBytes frames ++ tail).length - frames.length + 1) tail
        (runFrames frames) := by
  unfold ls_all
  rw [prepareOutputDir_eq]
  have hfle := frames_length_le frames
  have hlen : (framesBytes frames ++ tail).length + 1 =
      ((framesBytes frames ++ tail).length - frames.length + 1) + frames.length := by
    simp only [List.length_append]
    omega
  rw [hlen, recvLoop_frames frames _ tail _ hwf]
  rfl

/-! ## Claim C1: bulk transfer of a single well-formed frame -/

/-- C1: on the serial byte stream `"f1.raw" ++ 0x00 ++ u32le 3 ++ "xyz" ++ 0x00`,
the receive loop of `FileSystem.ls_all` saves exactly one file named `f1.raw`
with content `xyz` under the output directory (no PNG preview is generated
because 3 bytes is not a full 128x128 RGB565 image), encounters zero timeout
errors, terminates via the explicit empty-filename termination signal, and
returns the one-element saved-paths list. -/
theorem c1_bulk_single_file :
    ls_all .absent [102, 49, 46, 114, 97, 119, 0, 3, 0, 0, 0, 120, 121, 122, 0] =
      ⟨⟨[([102, 49, 46, 114, 97, 119], .bytes [120, 121, 122])],
        [[102, 49, 46, 114, 97, 119]], 1, 3⟩, 0, .doneSignal⟩ := by
  decide

/-! ## Claim C4: output directory clean slate -/

/-- C4: the result of `ls_all` is independent of whatever was previously at
the output path — before receiving, the destination is fully cleared
(directory removed, plain file removed) and recreated empty — so no file from
a previous invocation remains visible after a later invocation returns; in
particular a run over a silent stream, which saves zero files, leaves the
directory empty. -/
theorem c4_output_dir_clean_slate (p : OutPath) (s : List Nat) :
    ls_all p s = ls_all .absent s ∧
    (∀ nm, nm ∈ dirKeys (ls_all p s).state.dir →
      nm ∈ dirKeys (ls_all .absent s).state.dir) ∧
    (ls_all p []).state.dir = [] := by
  have h1 : ls_all p s = ls_all .absent s := by cases p <;> rfl
  refine ⟨h1, ?_, ?_⟩
  · intro nm hm
    rw [h1] at hm
    exact hm
  · cases p <;> rfl

/-- Witness for C4: a second run over a silent stream on top of a directory
holding a previous run's file leaves nothing visible. -/
theorem c4_witness :
    (ls_all (.directory [([97], FsEntry.bytes [120])]) []).state.dir = [] :=
  (c4_output_dir_clean_slate (.directory [([97], FsEntry.bytes [120])]) []).2.2

/-! ## Claim C3: truncated size field aborts the loop -/

/-- C3: after any sequence of complete frames, a frame whose non-empty
null-terminated filename is followed by fewer than 4 size bytes before the
stream goes silent makes the receive loop abort entirely: no data-phase read
happens, no file is created for that frame, the state is exactly the state
after the prior frames, and the returned saved list is exactly the files
saved before the error. -/
theorem c3_short_size_aborts (prior : OutPath) (frames : List Frame)
    (badName szBytes : List Nat)
    (hwf : ∀ fr ∈ frames, fr.wf) (hbn : badName ≠ [])
    (hbz : ∀ x ∈ badName, x ≠ 0) (hsz : szBytes.length < 4) :
    ls_all prior (framesBytes frames ++ badName ++ [0] ++ szBytes) =
      ⟨runFrames frames, 1, .abortShortSize⟩ ∧
    (runFrames frames).saved = frames.map Frame.name := by
  constructor
  · have hassoc : framesBytes frames ++ badName ++ [0] ++ szBytes =
        framesBytes frames ++ (badName ++ [0] ++ szBytes) := by
      simp [List.append_assoc]
    rw [hassoc, ls_all_frames prior frames _ hwf]
    rw [recvLoop_shortSize _ badName szBytes _ hbn hbz hsz]
  · simpa using runFrames_saved frames ⟨[], [], 0, 0⟩

/-- Witness for C3: one complete frame `a ↦ x`, then a frame `b` whose size
field only delivers two bytes. -/
theorem c3_witness :
    ls_all .absent [97, 0, 1, 0, 0, 0, 120, 98, 0, 5, 0] =
      ⟨runFrames [⟨[97], [120]⟩], 1, .abortShortSize⟩ := by
  have h := (c3_short_size_aborts .absent [⟨[97], [120]⟩] [98] [5, 0]
    (by decide) (by decide) (by decide) (by decide)).1
  have hs : framesBytes [(⟨[97], [120]⟩ : Frame)] ++ [98] ++ [0] ++ [5, 0] =
      [97, 0, 1, 0, 0, 0, 120, 98, 0, 5, 0] := by decide
  rw [← hs, h]

/-! ## Claim C2: data-phase timeout -/

/-- C2 counterexample: the claim asserts that after a data-phase timeout the
prior completed files are retained on disk. In the stream below, frame `a`
(one byte `x`) completes, then a second frame reuses the name `a`, declares
10 bytes and delivers only 4 before the stream goes silent: the cleanup of
the partial write deletes the file at path `a`, so the previously completed
file `a` is no longer on disk even though its path is returned in the saved
list. -/
theorem c2_counterexample :
    (ls_all .absent
        [97, 0, 1, 0, 0, 0, 120, 97, 0, 10, 0, 0, 0, 120, 121, 122, 119]).state.saved
      = [[97]] ∧
    dirLookup (ls_all .absent
        [97, 0, 1, 0, 0, 0, 120, 97, 0, 10, 0, 0, 0, 120, 121, 122, 119]).state.dir
      [97] = none ∧
    (ls_all .absent
        [97, 0, 1, 0, 0, 0, 120, 97, 0, 10, 0, 0, 0, 120, 121, 122, 119]).term
      = .abortDataTimeout := by
  decide

/-- C2 (amended): when a frame's size header declares `n` bytes but the stream
delivers only `pd` (fewer than `n`) before going silent, the receive loop
writes the partial bytes, deletes the file at the failing frame's destination
path — including any previously completed file that shared that name — aborts
the entire loop with one timeout error (no resume, no retransmission request),
and returns exactly the list of paths saved before that frame; prior completed
files at every other path are retained on disk. -/
theorem c2_data_timeout_amended (prior : OutPath) (frames : List Frame)
    (badName pd : List Nat) (n : Nat)
    (hwf : ∀ fr ∈ frames, fr.wf) (hbn : badName ≠ [])
    (hbz : ∀ x ∈ badName, x ≠ 0)
    (hn : n < 4294967296) (hshort : pd.length < n) :
    ls_all prior (framesBytes frames ++ badName ++ [0] ++ u32le n ++ pd) =
      ⟨⟨dirErase (dirInsert (runFrames frames).dir badName (.bytes pd)) badName,
        (runFrames frames).saved, (runFrames frames).filesReceived,
        (runFrames frames).totalBytes⟩, 1, .abortDataTimeout⟩ ∧
    (runFrames frames).saved = frames.map Frame.name ∧
    dirLookup
      (dirErase (dirInsert (runFrames frames).dir badName (.bytes pd)) badName)
      badName = none ∧
    (∀ nm, nm ≠ badName →
      dirLookup
        (dirErase (dirInsert (runFrames frames).dir badName (.bytes pd)) badName) nm =
      dirLookup (runFrames frames).dir nm) := by
  refine ⟨?_, by simpa using runFrames_saved frames ⟨[], [], 0, 0⟩, ?_, ?_⟩
  · have hassoc : framesBytes frames ++ badName ++ [0] ++ u32le n ++ pd =
        framesBytes frames ++ (badName ++ [0] ++ u32le n ++ pd) := by
      simp [List.append_assoc]
    rw [hassoc, ls_all_frames prior frames _ hwf]
    rw [recvLoop_dataTimeout _ badName pd n _ hbn hbz hn hshort]
  · apply dirErase_lookup_self
    apply dirInsert_keys_nodup
    exact runFrames_keys_nodup frames ⟨[], [], 0, 0⟩ (by simp [dirKeys])
  · intro nm hne
    exact dirErase_dirInsert_lookup_ne _ _ _ _ hne

/-- Witness for C2: frame `a ↦ x` completes, then frame `b` declares 10 bytes
and delivers 2; file `a` survives, file `b` is removed, the loop aborts. -/
theorem c2_witness :
    ls_all .absent [97, 0, 1, 0, 0, 0, 120, 98, 0, 10, 0, 0, 0, 1, 2] =
      ⟨⟨[([97], .bytes [120])], [[97]], 1, 1⟩, 1, .abortDataTimeout⟩ := by
  have h := (c2_data_timeout_amended .absent [⟨[97], [120]⟩] [98] [1, 2] 10
    (by decide) (by decide) (by decide) (by decide) (by decide)).1
  have hs : framesBytes [(⟨[97], [120]⟩ : Frame)] ++ [98] ++ [0] ++ u32le 10 ++ [1, 2] =
      [97, 0, 1, 0, 0, 0, 120, 98, 0, 10, 0, 0, 0, 1, 2] := by decide
  rw [← hs, h]
  decide

end ApiTest
